import Mathlib

/-!
Verification of the contact/message synchronization layer of the
whatsapp-automation console.

The definitions below are a shallow embedding of the TypeScript source:

* `src/services/supabaseService.ts` — `fetchContacts`, `fetchMessages`,
  `fetchContact`, `markMessagesAsRead`, and the `Contact`/`Message` row types;
* `src/services/webhookService.ts` — `sendMessage`;
* `src/components/MessageInput.tsx` — `handleSend`;
* `src/components/ChatView.tsx` — the subscription merge callback.

Modelling conventions:

* ISO timestamp strings are represented by their epoch-millisecond value,
  i.e. the result of `new Date(s).getTime()`, as an `Int`; nullable columns
  become `Option`.
* JavaScript truthiness on nullable string fields (`null` and `""` are falsy)
  is the `truthy` predicate below.
* The database queries are modelled as filter / stable-sort / range over an
  in-memory list of rows; the two-key ordering `order(sent_at desc, nullsFirst
  false).order(created_at desc)` is the boolean relation `dbLe`.
* `Array.prototype.sort` is stable per the ECMAScript specification and is
  modelled by `List.mergeSort`.
* `new Map(pairs)` construction is modelled by `mapUpsert`/`jsMapValues`:
  a duplicated key keeps its first position but its value is overwritten by
  the later pair.
-/

namespace WhatsappAutomation

/-- A row of the `messages` table (interface `Message`,
`supabaseService.ts` lines 21-44).  Timestamps are epoch milliseconds. -/
structure Message where
  id : String
  wamid : Option String
  from_number : String
  to_number : String
  direction : String
  message_type : String
  message_body : Option String
  media_url : Option String
  media_mime_type : Option String
  template_name : Option String
  is_reply : Bool
  reply_to_wamid : Option String
  button_text : Option String
  status : String
  sent_at : Option Int
  delivered_at : Option Int
  read_at : Option Int
  failed_at : Option Int
  failure_reason : Option String
  contact_id : Option String
  created_at : Int
  updated_at : Int
  deriving DecidableEq, Repr

/-- A row of the `contacts` table (interface `Contact`,
`supabaseService.ts` lines 4-19).  `has_unread_inbound` is the optional
derived field, absent (`none`) on rows coming straight from the store. -/
structure Contact where
  id : String
  phone : String
  name : Option String
  tags : Option (List String)
  notes : Option String
  last_message_at : Option Int
  last_message_preview : Option String
  total_messages_in : Nat
  total_messages_out : Nat
  is_active : Bool
  created_at : Int
  updated_at : Int
  has_unread_inbound : Option Bool
  deriving DecidableEq, Repr

/-- JavaScript truthiness of a nullable string field:
`null` (here `none`) and the empty string are falsy. -/
def truthy : Option String → Bool
  | none => false
  | some s => !s.isEmpty

/-- Effective ordering timestamp of a message:
`sent_at` if present, else `created_at` (the `a.sent_at ? ... : ...`
pattern of `fetchMessages` and of the ChatView sort). -/
def effTime (m : Message) : Int :=
  match m.sent_at with
  | some t => t
  | none => m.created_at

/-- The ascending comparator `timeA - timeB` used by the reconciler sort and
the ChatView merge sort, as a boolean total preorder. -/
def effLe (a b : Message) : Bool :=
  decide (effTime a ≤ effTime b)

/-- Row order of the paged store queries:
`order(sent_at, descending, nullsFirst false).order(created_at, descending)`.
`dbLe a b` holds when row `a` precedes (or ties with) row `b` in the query
output. -/
def dbLe (a b : Message) : Bool :=
  match a.sent_at, b.sent_at with
  | some x, some y => decide (y < x) || (decide (x = y) && decide (b.created_at ≤ a.created_at))
  | some _, none => true
  | none, some _ => false
  | none, none => decide (b.created_at ≤ a.created_at)

/-- One step of the `new Map(allMessages.map(msg => [msg.id, msg]))`
construction: insert key `m.id` with value `m`.  A key already present keeps
its position but its value is overwritten (ECMAScript `Map.set`). -/
def mapUpsert (acc : List (String × Message)) (m : Message) : List (String × Message) :=
  if acc.any (fun p => p.1 == m.id) then
    acc.map (fun p => if p.1 == m.id then (m.id, m) else p)
  else
    acc ++ [(m.id, m)]

/-- Model of `Array.from(new Map(l.map(msg => [msg.id, msg])).values())`:
deduplicate by message id, keeping key insertion order. -/
def jsMapValues (l : List Message) : List Message :=
  (l.foldl mapUpsert []).map Prod.snd

/-- The merge/dedup/sort pipeline of `fetchMessages`
(`supabaseService.ts` lines 290-301): concatenate the two query results,
deduplicate by id through a JS `Map`, then stable-sort ascending by
effective timestamp. -/
def reconcile (dataByContactId dataByPhone : List Message) : List Message :=
  (jsMapValues (dataByContactId ++ dataByPhone)).mergeSort effLe

/-- Result shape of `fetchMessages`. -/
structure FetchMessagesResult where
  messages : List Message
  hasMore : Bool
  total : Nat
  deriving DecidableEq, Repr

/-- Tail of `fetchMessages` (`supabaseService.ts` lines 290-313), given the
two fetched row lists, the page cap and the exact count of the contact-id
query.  `hasMore` compares the deduplicated length with the cap;
`total` is `countByContactId || totalFetched` (JS: a zero count is falsy). -/
def fetchMessagesCore (dataByContactId dataByPhone : List Message)
    (maxMessages : Nat) (countByContactId : Nat) : FetchMessagesResult :=
  let sortedMessages := reconcile dataByContactId dataByPhone
  let totalFetched := sortedMessages.length
  { messages := sortedMessages
    hasMore := decide (totalFetched ≥ maxMessages)
    total := if countByContactId == 0 then totalFetched else countByContactId }

/-- Model of `fetchContact` (`supabaseService.ts` lines 321-334):
`.eq(id, contactId).single()` succeeds only when exactly one row matches;
on error the function returns `null`. -/
def fetchContact (contacts : List Contact) (contactId : String) : Option Contact :=
  match contacts.filter (fun c => c.id == contactId) with
  | [c] => some c
  | _ => none

/-- A paged store query: filter, order by `dbLe`, then PostgREST
`range(offset, offset + maxMessages - 1)` (an inclusive index range). -/
def pagedQuery (pred : Message → Bool) (offset maxMessages : Nat)
    (msgs : List Message) : List Message :=
  (((msgs.filter pred).mergeSort dbLe).drop offset).take maxMessages

/-- Model of `fetchMessages` (`supabaseService.ts` lines 250-318) over an in-memory
store.  An unknown contact id short-circuits to an empty result; otherwise
the two queries are issued and reconciled.  `limit || 1000` reads a zero
limit as absent (JS truthiness on numbers). -/
def fetchMessages (contacts : List Contact) (msgs : List Message)
    (contactId : String) (limit offset : Nat) : FetchMessagesResult :=
  match fetchContact contacts contactId with
  | none => { messages := [], hasMore := false, total := 0 }
  | some contact =>
    let maxMessages := if limit == 0 then 1000 else limit
    let dataByContactId :=
      pagedQuery (fun m => m.contact_id == some contactId) offset maxMessages msgs
    let dataByPhone :=
      pagedQuery (fun m => m.from_number == contact.phone || m.to_number == contact.phone)
        offset maxMessages msgs
    let countByContactId := (msgs.filter (fun m => m.contact_id == some contactId)).length
    fetchMessagesCore dataByContactId dataByPhone maxMessages countByContactId

/-- The per-contact last-message query of `fetchContacts`
(`supabaseService.ts` lines 190-197): order by `dbLe`, `limit(1).maybeSingle()`. -/
def lastMessageQuery (candidates : List Message) : Option Message :=
  (candidates.mergeSort dbLe).head?

/-- The preview cascade of `fetchContacts` (lines 202-211), before
truncation: button label, else body, else `[Image]`, else `[Media]`;
presence of a text field is JS truthiness. -/
def previewCandidate (m : Message) : String :=
  if m.message_type == "button" && truthy m.button_text then m.button_text.getD ""
  else if truthy m.message_body then m.message_body.getD ""
  else if truthy m.media_url then "[Image]"
  else "[Media]"

/-- The truncation step of `fetchContacts` (lines 213-215):
`preview.substring(0, 50) + "..."` when longer than 50 characters. -/
def truncatePreview (p : String) : String :=
  if p.length > 50 then String.mk (p.data.take 50) ++ "..." else p

/-- Preview text derived from a last message (`fetchContacts` lines 202-215). -/
def previewOf (m : Message) : String :=
  truncatePreview (previewCandidate m)

/-- The unread flag of `fetchContacts` (line 217):
the last message is inbound and its `read_at` is null. -/
def rosterUnread (m : Message) : Bool :=
  m.direction == "inbound" && m.read_at == none

/-- The fresh-lookup branch of `fetchContacts` (lines 189-227): run the
last-message query over the candidate rows and, when a row is found, refresh
the cached timestamp, preview and unread flag; otherwise return the contact
unchanged. -/
def freshLookup (contact : Contact) (candidates : List Message) : Contact :=
  match lastMessageQuery candidates with
  | some lastMessage =>
    { contact with
      last_message_at := some (effTime lastMessage)
      last_message_preview := some (previewOf lastMessage)
      has_unread_inbound := some (rosterUnread lastMessage) }
  | none => contact

/-- The staleness test of `fetchContacts` (lines 174-180): reuse the cached
fields iff the cached last-message timestamp (0 when absent) is newer than
`Date.now() - 3600000` and a cached preview is truthy. -/
def usesCache (contact : Contact) (nowMs : Int) : Bool :=
  let contactLastMessageAt : Int :=
    match contact.last_message_at with
    | some t => t
    | none => 0
  let oneHourAgo := nowMs - 3600000
  decide (contactLastMessageAt > oneHourAgo) && truthy contact.last_message_preview

/-- Per-contact step of the roster aggregation (`fetchContacts`
lines 173-228): either reuse the cached fields or perform the fresh lookup. -/
def fetchContactsStep (contact : Contact) (nowMs : Int)
    (candidates : List Message) : Contact :=
  if usesCache contact nowMs then
    { contact with has_unread_inbound := some (contact.has_unread_inbound.getD false) }
  else
    freshLookup contact candidates

/-- The selection query of `markMessagesAsRead` (lines 468-473): all
inbound messages of the contact with a null read timestamp. -/
def unreadInboundFor (contactId : String) (msgs : List Message) : List Message :=
  msgs.filter (fun m =>
    m.contact_id == some contactId && m.direction == "inbound" && m.read_at == none)

/-- The read-state transition of `markMessagesAsRead`
(`supabaseService.ts` lines 458-502) on the message store: select the unread
inbound messages of the contact; if none, no-op; else set status to `read`
and stamp `read_at`/`updated_at` on every row whose id was selected. -/
def markMessagesAsRead (contactId : String) (now : Int)
    (msgs : List Message) : List Message :=
  let unreadMessages := unreadInboundFor contactId msgs
  if unreadMessages.isEmpty then msgs
  else
    let messageIds := unreadMessages.map (fun m => m.id)
    msgs.map (fun m =>
      if messageIds.contains m.id then
        { m with status := "read", read_at := some now, updated_at := now }
      else m)

/-- Model of `markMessagesAsRead` including the initial contact lookup guard
(lines 459-463): an unknown contact is a no-op. -/
def markMessagesAsReadOp (contacts : List Contact) (contactId : String)
    (now : Int) (msgs : List Message) : List Message :=
  match fetchContact contacts contactId with
  | none => msgs
  | some _ => markMessagesAsRead contactId now msgs

/-- The subscription merge callback of `ChatView.tsx` (lines 387-399):
discard the pushed message when some current message has the same id or the
same `wamid` field value (JS `===`, so two nulls compare equal); otherwise
append and stable-sort by effective timestamp. -/
def mergeNewMessage (prev : List Message) (newMessage : Message) : List Message :=
  if prev.any (fun msg => msg.id == newMessage.id || msg.wamid == newMessage.wamid) then
    prev
  else
    (prev ++ [newMessage]).mergeSort effLe

/-- Outcome of the `fetch` POST inside `webhookService.sendMessage`:
either an HTTP response (status and statusText) or a network failure with
an error message. -/
inductive FetchOutcome where
  | response (status : Nat) (statusText : String)
  | networkFailure (message : String)
  deriving DecidableEq, Repr

/-- Model of `Response.ok` of the Fetch standard: status in the range 200-299. -/
def responseOk (status : Nat) : Bool :=
  decide (200 ≤ status) && decide (status < 300)

/-- Result shape of `webhookService.sendMessage`. -/
structure SendResult where
  success : Bool
  error : Option String
  deriving DecidableEq, Repr

/-- JS `s || fallback` on strings: the empty string is falsy. -/
def jsStringOr (s fallback : String) : String :=
  if s.isEmpty then fallback else s

/-- Model of `webhookService.sendMessage` (lines 2-35): missing webhook URL is an
error result; a non-ok response raises `Webhook request failed: ...` which
the catch block converts to an error result; a network failure is caught the
same way.  The function always returns, it never throws. -/
def sendMessage (webhookUrl : Option String) (outcome : FetchOutcome) : SendResult :=
  match webhookUrl with
  | none => { success := false, error := some "Webhook URL not configured" }
  | some _ =>
    match outcome with
    | .response status statusText =>
      if responseOk status then { success := true, error := none }
      else
        { success := false
          error := some (jsStringOr ("Webhook request failed: " ++ statusText)
            "Failed to send message") }
    | .networkFailure message =>
      { success := false
        error := some (jsStringOr message "Failed to send message") }

/-- Composer state of `MessageInput.tsx`. -/
structure ComposerState where
  messageText : String
  sending : Bool
  deriving DecidableEq, Repr

/-- Observable outcome of one `handleSend` run: the final composer state,
whether an error alert was shown, and the body of the optimistic message
handed to `onMessageSent` (if any). -/
structure HandleSendOutcome where
  state : ComposerState
  alerted : Bool
  sent : Option String
  deriving DecidableEq, Repr

/-- JS `String.prototype.trim`: strip whitespace from both ends,
modelled on the character list. -/
def jsTrim (s : String) : String :=
  String.mk (((s.data.dropWhile Char.isWhitespace).reverse.dropWhile
    Char.isWhitespace).reverse)

/-- Model of `MessageInput.handleSend` (lines 16-67), given the result of the send
call: guard on empty input or an in-flight send; on success clear the input
and emit the optimistic message; on failure alert and restore the (trimmed)
input text.  There is exactly one send attempt per invocation and no retry. -/
def handleSend (st : ComposerState) (result : SendResult) : HandleSendOutcome :=
  if (jsTrim st.messageText).isEmpty || st.sending then
    { state := st, alerted := false, sent := none }
  else
    let text := jsTrim st.messageText
    if result.success then
      { state := { messageText := "", sending := false }, alerted := false, sent := some text }
    else
      { state := { messageText := text, sending := false }, alerted := true, sent := none }

/-! ## Helper notions and lemmas -/

/-- The last occurrence of id `k` in `l` (scan from the right). -/
def lastOcc (l : List Message) (k : String) : Option Message :=
  l.reverse.find? (fun m => m.id == k)

/-- First entry with key `k` in a key/value list. -/
def keyFind (acc : List (String × Message)) (k : String) : Option (String × Message) :=
  acc.find? (fun p => p.1 == k)

theorem lastOcc_nil (k : String) : lastOcc [] k = none := rfl

theorem lastOcc_cons (m : Message) (t : List Message) (k : String) :
    lastOcc (m :: t) k = (lastOcc t k).or (if m.id == k then some m else none) := by
  cases h : m.id == k <;>
    simp [lastOcc, List.find?_append, List.find?_cons, h]

theorem keyFind_map_replace (m : Message) :
    ∀ acc : List (String × Message), acc.any (fun p => p.1 == m.id) = true →
      keyFind (acc.map fun p => if p.1 == m.id then (m.id, m) else p) m.id = some (m.id, m) := by
  intro acc
  induction acc with
  | nil => intro h; simp at h
  | cons q t ih =>
    intro h
    simp only [List.map_cons]
    by_cases hq : (q.1 == m.id) = true
    · rw [if_pos hq]
      unfold keyFind
      simp only [List.find?_cons, beq_self_eq_true]
    · rw [if_neg hq]
      have hq' : (q.1 == m.id) = false := by simpa using hq
      unfold keyFind
      simp only [List.find?_cons, hq']
      apply ih
      simpa [List.any_cons, hq] using h

theorem keyFind_map_replace_ne (m : Message) (k : String) (h : ¬ m.id = k) :
    ∀ acc : List (String × Message),
      keyFind (acc.map fun p => if p.1 == m.id then (m.id, m) else p) k = keyFind acc k := by
  intro acc
  induction acc with
  | nil => rfl
  | cons q t ih =>
    simp only [List.map_cons]
    by_cases hq : (q.1 == m.id) = true
    · rw [if_pos hq]
      unfold keyFind
      have h1 : ((m.id, m).1 == k) = false := by simpa using h
      have h2 : (q.1 == k) = false := by
        have hq1 : q.1 = m.id := by simpa using hq
        simpa [hq1] using h
      simp only [List.find?_cons, h1, h2]
      exact ih
    · rw [if_neg hq]
      unfold keyFind
      cases hk : (q.1 == k) <;> simp only [List.find?_cons, hk]
      exact ih

theorem keyFind_mapUpsert_self (acc : List (String × Message)) (m : Message) :
    keyFind (mapUpsert acc m) m.id = some (m.id, m) := by
  unfold mapUpsert
  split
  · exact keyFind_map_replace m acc (by assumption)
  · rename_i h
    have hnone : List.find? (fun p => p.1 == m.id) acc = none := by
      rw [List.find?_eq_none]
      intro p hp hc
      exact h (List.any_eq_true.mpr ⟨p, hp, hc⟩)
    unfold keyFind
    rw [List.find?_append, hnone, Option.none_or]
    simp

theorem keyFind_mapUpsert_ne (acc : List (String × Message)) (m : Message) (k : String)
    (h : ¬(m.id = k)) : keyFind (mapUpsert acc m) k = keyFind acc k := by
  unfold mapUpsert
  split
  · exact keyFind_map_replace_ne m k h acc
  · unfold keyFind
    rw [List.find?_append]
    have hs : List.find? (fun p => p.1 == k) [(m.id, m)] = none := by simp [h]
    rw [hs, Option.or_none]

theorem keyFind_foldl (l : List Message) :
    ∀ (acc : List (String × Message)) (k : String),
      keyFind (l.foldl mapUpsert acc) k =
        match lastOcc l k with
        | some m => some (k, m)
        | none => keyFind acc k := by
  induction l with
  | nil => intro acc k; simp [lastOcc_nil]
  | cons m t ih =>
    intro acc k
    rw [List.foldl_cons, ih, lastOcc_cons]
    cases hlt : lastOcc t k with
    | some m' => simp
    | none =>
      by_cases hm : m.id = k
      · subst hm
        simp [keyFind_mapUpsert_self]
      · have : ¬(m.id == k) = true := by simpa using hm
        simp [this, keyFind_mapUpsert_ne acc m k hm]

/-- Invariant of the accumulator of the `Map` fold: keys are distinct and
each value carries its own key as id. -/
def goodAcc (acc : List (String × Message)) : Prop :=
  (acc.map Prod.fst).Nodup ∧ ∀ p ∈ acc, p.2.id = p.1

theorem goodAcc_mapUpsert (acc : List (String × Message)) (m : Message)
    (h : goodAcc acc) : goodAcc (mapUpsert acc m) := by
  obtain ⟨hn, hv⟩ := h
  unfold mapUpsert
  split
  · refine ⟨?_, ?_⟩
    · have heq : ((acc.map fun p => if p.1 == m.id then (m.id, m) else p).map Prod.fst)
          = acc.map Prod.fst := by
        rw [List.map_map]
        apply List.map_congr_left
        intro p _
        by_cases hp : (p.1 == m.id) = true
        · simp only [Function.comp_apply, if_pos hp]
          exact (beq_iff_eq.mp hp).symm
        · simp only [Function.comp_apply, if_neg hp]
      rw [heq]; exact hn
    · intro p hp
      obtain ⟨q, hq, rfl⟩ := List.mem_map.mp hp
      by_cases hqm : (q.1 == m.id) = true
      · rw [if_pos hqm]
      · rw [if_neg hqm]
        exact hv q hq
  · rename_i hany
    refine ⟨?_, ?_⟩
    · rw [List.map_append, List.nodup_append]
      refine ⟨hn, by simp, ?_⟩
      intro k hk
      simp only [List.map_cons, List.map_nil, List.mem_singleton]
      intro hk2
      obtain ⟨p, hp, hpk⟩ := List.mem_map.mp hk
      apply hany
      rw [List.any_eq_true]
      exact ⟨p, hp, by simp [hpk, hk2]⟩
    · intro p hp
      rcases List.mem_append.mp hp with h1 | h1
      · exact hv p h1
      · simp only [List.mem_singleton] at h1
        rw [h1]

theorem goodAcc_foldl (l : List Message) :
    ∀ acc : List (String × Message), goodAcc acc → goodAcc (l.foldl mapUpsert acc) := by
  induction l with
  | nil => intro acc h; exact h
  | cons m t ih =>
    intro acc h
    rw [List.foldl_cons]
    exact ih _ (goodAcc_mapUpsert acc m h)

theorem keyFind_of_mem (p : String × Message) :
    ∀ acc : List (String × Message), (acc.map Prod.fst).Nodup → p ∈ acc →
      keyFind acc p.1 = some p := by
  intro acc
  induction acc with
  | nil => simp
  | cons q t ih =>
    intro hn hp
    rcases List.mem_cons.mp hp with rfl | hp
    · simp [keyFind, List.find?_cons]
    · have hq : ¬(q.1 == p.1) = true := by
        simp only [beq_iff_eq]
        intro hqe
        have : p.1 ∈ t.map Prod.fst := List.mem_map.mpr ⟨p, hp, rfl⟩
        rw [List.map_cons, List.nodup_cons] at hn
        exact hn.1 (hqe ▸ this)
      simp only [keyFind, List.find?_cons, hq]
      rw [List.map_cons, List.nodup_cons] at hn
      exact ih hn.2 hp

theorem jsMapValues_good (l : List Message) : goodAcc (l.foldl mapUpsert []) :=
  goodAcc_foldl l [] ⟨List.nodup_nil, by simp⟩

theorem jsMapValues_nodup_ids (l : List Message) :
    ((jsMapValues l).map (fun m => m.id)).Nodup := by
  obtain ⟨hn, hv⟩ := jsMapValues_good l
  unfold jsMapValues
  rw [List.map_map]
  have : ((l.foldl mapUpsert []).map ((fun m => m.id) ∘ Prod.snd))
      = (l.foldl mapUpsert []).map Prod.fst := by
    apply List.map_congr_left
    intro p hp
    exact hv p hp
  rw [this]
  exact hn

theorem jsMapValues_eq_lastOcc (l : List Message) :
    ∀ m ∈ jsMapValues l, lastOcc l m.id = some m := by
  intro m hm
  obtain ⟨hn, hv⟩ := jsMapValues_good l
  obtain ⟨p, hp, hps⟩ := List.mem_map.mp hm
  have hpid : p = (m.id, m) := by
    have := hv p hp
    rw [hps] at this
    cases p
    simp_all
  subst hpid
  have hfind : keyFind (l.foldl mapUpsert []) m.id = some (m.id, m) :=
    keyFind_of_mem (m.id, m) _ hn hp
  rw [keyFind_foldl l [] m.id] at hfind
  cases hlo : lastOcc l m.id with
  | none => rw [hlo] at hfind; simp [keyFind] at hfind
  | some m' =>
    rw [hlo] at hfind
    simp only [Option.some.injEq, Prod.mk.injEq] at hfind
    rw [hfind.2]

theorem lastOcc_isSome_of_mem (l : List Message) (m : Message) (hm : m ∈ l) :
    (lastOcc l m.id).isSome := by
  unfold lastOcc
  rw [List.find?_isSome]
  exact ⟨m, List.mem_reverse.mpr hm, by simp⟩

theorem jsMapValues_covers (l : List Message) :
    ∀ m ∈ l, ∃ m', m' ∈ jsMapValues l ∧ m'.id = m.id := by
  intro m hm
  obtain ⟨m', hm'⟩ := Option.isSome_iff_exists.mp (lastOcc_isSome_of_mem l m hm)
  have hfind : keyFind (l.foldl mapUpsert []) m.id = some (m.id, m') := by
    rw [keyFind_foldl l [] m.id, hm']
  refine ⟨m', List.mem_map.mpr ⟨(m.id, m'), List.mem_of_find?_eq_some hfind, rfl⟩, ?_⟩
  have := List.find?_some hm'
  simpa using this

theorem lastOcc_isSome_iff (l : List Message) (k : String) :
    (lastOcc l k).isSome ↔ ∃ m ∈ l, m.id = k := by
  unfold lastOcc
  rw [List.find?_isSome]
  constructor
  · rintro ⟨m, hm, hp⟩
    exact ⟨m, List.mem_reverse.mp hm, by simpa using hp⟩
  · rintro ⟨m, hm, hp⟩
    exact ⟨m, List.mem_reverse.mpr hm, by simpa using hp⟩

theorem jsMapValues_length (l : List Message) :
    (jsMapValues l).length = ((l.map (fun m => m.id)).dedup).length := by
  obtain ⟨hn, _⟩ := jsMapValues_good l
  have hperm : ((l.foldl mapUpsert []).map Prod.fst).Perm ((l.map (fun m => m.id)).dedup) := by
    apply List.perm_of_nodup_nodup_toFinset_eq hn (List.nodup_dedup _)
    ext k
    simp only [List.mem_toFinset, List.mem_dedup, List.mem_map]
    constructor
    · rintro ⟨p, hp, rfl⟩
      have : (keyFind (l.foldl mapUpsert []) p.1).isSome := by
        rw [keyFind_of_mem p _ hn hp]; rfl
      rw [keyFind_foldl l [] p.1] at this
      cases hlo : lastOcc l p.1 with
      | none => rw [hlo] at this; simp [keyFind] at this
      | some m' =>
        have hmem := List.mem_of_find?_eq_some hlo
        have hpred := List.find?_some hlo
        exact ⟨m', List.mem_reverse.mp hmem, by simpa using hpred⟩
    · rintro ⟨m, hm, rfl⟩
      obtain ⟨m', hm'⟩ := Option.isSome_iff_exists.mp (lastOcc_isSome_of_mem l m hm)
      have hfind : keyFind (l.foldl mapUpsert []) m.id = some (m.id, m') := by
        rw [keyFind_foldl l [] m.id, hm']
      exact ⟨(m.id, m'), List.mem_of_find?_eq_some hfind, rfl⟩
  calc (jsMapValues l).length
      = ((l.foldl mapUpsert []).map Prod.fst).length := by
        simp [jsMapValues]
    _ = ((l.map (fun m => m.id)).dedup).length := hperm.length_eq

/-! ## Order relation lemmas -/

theorem effLe_trans : ∀ a b c : Message, effLe a b → effLe b c → effLe a c := by
  intro a b c
  simp only [effLe, decide_eq_true_eq]
  omega

theorem effLe_total : ∀ a b : Message, effLe a b || effLe b a := by
  intro a b
  simp only [effLe, Bool.or_eq_true, decide_eq_true_eq]
  omega

theorem dbLe_refl (a : Message) : dbLe a a = true := by
  unfold dbLe
  cases a.sent_at <;> simp

theorem dbLe_trans : ∀ a b c : Message, dbLe a b → dbLe b c → dbLe a c := by
  intro a b c
  unfold dbLe
  cases a.sent_at <;> cases b.sent_at <;> cases c.sent_at <;>
    simp [Bool.or_eq_true, Bool.and_eq_true, decide_eq_true_eq] <;>
    omega

theorem dbLe_total : ∀ a b : Message, dbLe a b || dbLe b a := by
  intro a b
  unfold dbLe
  cases a.sent_at <;> cases b.sent_at <;>
    simp [Bool.or_eq_true, Bool.and_eq_true, decide_eq_true_eq] <;>
    omega

/-! ## Concrete sample rows for counterexamples and witnesses -/

/-- A concrete message row used by counterexamples and witnesses. -/
def sampleMessage : Message :=
  { id := "m1", wamid := none, from_number := "15550001111", to_number := "917011219741",
    direction := "inbound", message_type := "text", message_body := some "hello",
    media_url := none, media_mime_type := none, template_name := none, is_reply := false,
    reply_to_wamid := none, button_text := none, status := "sent", sent_at := some 10,
    delivered_at := none, read_at := none, failed_at := none, failure_reason := none,
    contact_id := some "c1", created_at := 5, updated_at := 5 }

/-- Same id as `sampleMessage` but a different body: the shape of a row that
was updated between the two sequential queries of `fetchMessages`. -/
def sampleMessageChanged : Message :=
  { sampleMessage with message_body := some "changed" }

/-- Two distinct messages with equal effective timestamps (a sort tie). -/
def msgTieA : Message := { sampleMessage with id := "t1" }

/-- Second message of the tie pair. -/
def msgTieB : Message := { sampleMessage with id := "t2" }

/-! ## C1 -/

/-- C1, as stated, is false: the JS `Map` built in `fetchMessages` keeps the
FIRST position but the LAST value for a duplicated key.  Here the two query
results hold different rows with the same id, and the reconciler output keeps
the second occurrence, not the first. -/
theorem c1_counterexample :
    sampleMessage.id = sampleMessageChanged.id
    ∧ sampleMessage ≠ sampleMessageChanged
    ∧ reconcile [sampleMessage] [sampleMessageChanged] = [sampleMessageChanged] := by
  refine ⟨rfl, by decide, ?_⟩
  show (jsMapValues ([sampleMessage] ++ [sampleMessageChanged])).mergeSort effLe
      = [sampleMessageChanged]
  rw [show jsMapValues ([sampleMessage] ++ [sampleMessageChanged])
      = [sampleMessageChanged] by decide]
  exact List.mergeSort_singleton _

/-- C1 (amended): the reconciler output contains no two messages with the
same identity; for every output message, it is the LAST occurrence of its id
in the concatenation of the two input lists (JS `Map` semantics: last value
wins, first position wins); and every input id is represented.  When the two
queries return identical rows for a shared id — the expected situation, as
both read the same table — last and first occurrence coincide and the
original claim holds. -/
theorem c1_dedup_unique_ids_last_wins (l1 l2 : List Message) :
    ((reconcile l1 l2).map (fun m => m.id)).Nodup
    ∧ (∀ m ∈ reconcile l1 l2, lastOcc (l1 ++ l2) m.id = some m)
    ∧ (∀ m ∈ l1 ++ l2, ∃ m', m' ∈ reconcile l1 l2 ∧ m'.id = m.id) := by
  have hperm : (reconcile l1 l2).Perm (jsMapValues (l1 ++ l2)) :=
    List.mergeSort_perm _ _
  refine ⟨?_, ?_, ?_⟩
  · exact (hperm.map (fun m => m.id)).nodup_iff.mpr (jsMapValues_nodup_ids (l1 ++ l2))
  · intro m hm
    exact jsMapValues_eq_lastOcc (l1 ++ l2) m (hperm.mem_iff.mp hm)
  · intro m hm
    obtain ⟨m', hm', hid⟩ := jsMapValues_covers (l1 ++ l2) m hm
    exact ⟨m', hperm.mem_iff.mpr hm', hid⟩

/-- Witness for `c1_dedup_unique_ids_last_wins` at a concrete input. -/
theorem c1_amended_witness :
    lastOcc ([sampleMessage] ++ [sampleMessageChanged]) sampleMessageChanged.id
      = some sampleMessageChanged := by
  have hmem : sampleMessageChanged ∈ reconcile [sampleMessage] [sampleMessageChanged] := by
    show sampleMessageChanged ∈ (jsMapValues ([sampleMessage] ++ [sampleMessageChanged])).mergeSort effLe
    rw [List.mem_mergeSort]
    decide
  exact (c1_dedup_unique_ids_last_wins [sampleMessage] [sampleMessageChanged]).2.1
    sampleMessageChanged hmem

/-! ## C2 -/

/-- C2: the reconciler output is sorted ascending by effective timestamp
(`sent_at` if present else `created_at`), non-strictly, and two messages with
equal effective timestamps keep their relative order from the deduplicated
list being sorted (the ECMAScript sort is stable). -/
theorem c2_sorted_ascending_stable (l1 l2 : List Message) :
    (reconcile l1 l2).Pairwise (fun a b => effTime a ≤ effTime b)
    ∧ (∀ a b : Message, effTime a = effTime b →
        [a, b].Sublist (jsMapValues (l1 ++ l2)) → [a, b].Sublist (reconcile l1 l2)) := by
  constructor
  · have h := List.sorted_mergeSort effLe_trans effLe_total (jsMapValues (l1 ++ l2))
    exact h.imp (fun hab => by simpa [effLe, decide_eq_true_eq] using hab)
  · intro a b heq hsub
    exact List.pair_sublist_mergeSort effLe_trans effLe_total
      (by simp [effLe, heq]) hsub

/-- Witness for `c2_sorted_ascending_stable`: a concrete tie is preserved. -/
theorem c2_witness :
    [msgTieA, msgTieB].Sublist (reconcile [msgTieA] [msgTieB]) := by
  have hsub : [msgTieA, msgTieB].Sublist (jsMapValues ([msgTieA] ++ [msgTieB])) := by
    rw [show jsMapValues ([msgTieA] ++ [msgTieB]) = [msgTieA, msgTieB] by decide]
  exact (c2_sorted_ascending_stable [msgTieA] [msgTieB]).2 msgTieA msgTieB rfl hsub

/-! ## C3 -/

/-- C3, as stated, is false: with a page cap of 2, two queries each returning
the same single row fetch 2 raw rows (reaching the cap), yet `hasMore` is
computed from the deduplicated count (1) and is `false`. -/
theorem c3_counterexample :
    2 ≤ ([sampleMessage] ++ [sampleMessage]).length
    ∧ (fetchMessagesCore [sampleMessage] [sampleMessage] 2 0).hasMore = false := by
  have hr : reconcile [sampleMessage] [sampleMessage] = [sampleMessage] := by
    show (jsMapValues ([sampleMessage] ++ [sampleMessage])).mergeSort effLe = [sampleMessage]
    rw [show jsMapValues ([sampleMessage] ++ [sampleMessage]) = [sampleMessage] by decide]
    exact List.mergeSort_singleton _
  constructor
  · decide
  · simp only [fetchMessagesCore, hr]
    decide

/-- C3 (amended): `hasMore` is true iff the DEDUPLICATED message count — the
number of distinct message ids across the two fetched lists — reached the
page cap. -/
theorem c3_hasMore_iff_dedup_count (l1 l2 : List Message)
    (maxMessages countByContactId : Nat) :
    (fetchMessagesCore l1 l2 maxMessages countByContactId).hasMore = true
      ↔ maxMessages ≤ (((l1 ++ l2).map (fun m => m.id)).dedup).length := by
  have hlen : (reconcile l1 l2).length = (((l1 ++ l2).map (fun m => m.id)).dedup).length := by
    show ((jsMapValues (l1 ++ l2)).mergeSort effLe).length = _
    rw [List.length_mergeSort]
    exact jsMapValues_length (l1 ++ l2)
  simp only [fetchMessagesCore, ge_iff_le, hlen, decide_eq_true_eq]

/-! ## C4 -/

/-- C4: the roster preview equals the cascade value — button label when the
type is `button` and a label is present, else the body when present, else
`[Image]` when a media reference exists, else `[Media]` — and a candidate
longer than 50 characters is replaced by its 50-character prefix plus an
ellipsis (53 characters total) while a candidate of at most 50 characters is
returned unmodified.  Presence of a text field is JS truthiness (non-null and
non-empty). -/
theorem c4_preview_cascade_truncation (m : Message) :
    (m.message_type = "button" → truthy m.button_text = true →
        previewCandidate m = m.button_text.getD "")
    ∧ (¬(m.message_type = "button" ∧ truthy m.button_text = true) →
        truthy m.message_body = true → previewCandidate m = m.message_body.getD "")
    ∧ (¬(m.message_type = "button" ∧ truthy m.button_text = true) →
        truthy m.message_body = false → truthy m.media_url = true →
        previewCandidate m = "[Image]")
    ∧ (¬(m.message_type = "button" ∧ truthy m.button_text = true) →
        truthy m.message_body = false → truthy m.media_url = false →
        previewCandidate m = "[Media]")
    ∧ (50 < (previewCandidate m).length →
        previewOf m = String.mk ((previewCandidate m).data.take 50) ++ "..."
        ∧ (previewOf m).length = 53)
    ∧ ((previewCandidate m).length ≤ 50 → previewOf m = previewCandidate m) := by
  have hbtn : ∀ (hn : ¬(m.message_type = "button" ∧ truthy m.button_text = true)),
      (m.message_type == "button" && truthy m.button_text) = false := by
    intro hn
    cases hb : (m.message_type == "button" && truthy m.button_text) with
    | false => rfl
    | true =>
      obtain ⟨h1, h2⟩ := Bool.and_eq_true_iff.mp hb
      exact absurd ⟨beq_iff_eq.mp h1, h2⟩ hn
  refine ⟨?_, ?_, ?_, ?_, ?_, ?_⟩
  · intro h1 h2
    simp [previewCandidate, h1, h2]
  · intro hn h2
    simp [previewCandidate, hbtn hn, h2]
  · intro hn h2 h3
    simp [previewCandidate, hbtn hn, h2, h3]
  · intro hn h2 h3
    simp [previewCandidate, hbtn hn, h2, h3]
  · intro h
    have he : previewOf m = String.mk ((previewCandidate m).data.take 50) ++ "..." := by
      unfold previewOf truncatePreview
      rw [if_pos h]
    refine ⟨he, ?_⟩
    rw [he, String.length_append, String.length_mk, List.length_take]
    have hdata : (previewCandidate m).data.length = (previewCandidate m).length := rfl
    rw [hdata]
    have h3 : ("..." : String).length = 3 := rfl
    omega
  · intro h
    unfold previewOf truncatePreview
    rw [if_neg (by omega)]

/-- A message whose body has exactly 60 characters. -/
def msg60 : Message :=
  { sampleMessage with
    message_body := some "abcdefghijklmnopqrstuvwxyzabcdefghijklmnopqrstuvwxyzabcdefgh" }

/-- A message whose body has exactly 40 characters. -/
def msg40 : Message :=
  { sampleMessage with
    message_body := some "abcdefghijklmnopqrstuvwxyzabcdefghijklmn" }

/-- Witness for `c4_preview_cascade_truncation`: a 60-character body yields a
53-character preview, a 40-character body is returned unmodified. -/
theorem c4_witness :
    (previewOf msg60).length = 53
    ∧ previewOf msg40 = "abcdefghijklmnopqrstuvwxyzabcdefghijklmn" := by
  constructor
  · exact ((c4_preview_cascade_truncation msg60).2.2.2.2.1 (by decide)).2
  · have h := (c4_preview_cascade_truncation msg40).2.2.2.2.2 (by decide)
    rw [h]
    decide

/-! ## C5 -/

/-- C5: the per-contact lookup is skipped iff the cached last-message
timestamp is within one hour of now (strictly newer than `now - 3600000`,
with an absent timestamp read as 0) and a cached preview exists; an absent
or stale timestamp always triggers the fresh lookup.  The hypothesis
`3600000 ≤ nowMs` says the clock reads at least one hour past the epoch. -/
theorem c5_staleness_window (c : Contact) (nowMs : Int) (h : 3600000 ≤ nowMs) :
    (usesCache c nowMs = true ↔
      ((∃ t, c.last_message_at = some t ∧ nowMs - 3600000 < t)
        ∧ truthy c.last_message_preview = true))
    ∧ (c.last_message_at = none → usesCache c nowMs = false)
    ∧ (∀ candidates, usesCache c nowMs = true →
        fetchContactsStep c nowMs candidates
          = { c with has_unread_inbound := some (c.has_unread_inbound.getD false) })
    ∧ (∀ candidates, usesCache c nowMs = false →
        fetchContactsStep c nowMs candidates = freshLookup c candidates) := by
  refine ⟨?_, ?_, ?_, ?_⟩
  · unfold usesCache
    cases hla : c.last_message_at with
    | none =>
      simp only [Bool.and_eq_true, decide_eq_true_eq]
      constructor
      · intro ⟨h1, _⟩; omega
      · rintro ⟨⟨t, ht, _⟩, _⟩; cases ht
    | some t =>
      simp only [Bool.and_eq_true, decide_eq_true_eq]
      constructor
      · intro ⟨h1, h2⟩; exact ⟨⟨t, rfl, by omega⟩, h2⟩
      · rintro ⟨⟨t', ht', hlt⟩, h2⟩
        have he : t = t' := by injection ht'
        subst he
        exact ⟨by omega, h2⟩
  · intro hla
    unfold usesCache
    rw [hla]
    simp only [Bool.and_eq_false_iff, decide_eq_false_iff_not]
    left
    omega
  · intro candidates hc
    unfold fetchContactsStep
    rw [if_pos hc]
  · intro candidates hc
    unfold fetchContactsStep
    rw [if_neg (by rw [hc]; exact Bool.false_ne_true)]

/-- A concrete contact row with a fresh cached preview. -/
def sampleContact : Contact :=
  { id := "c1", phone := "15550001111", name := some "Sam", tags := none, notes := none,
    last_message_at := some 7000000000, last_message_preview := some "hi",
    total_messages_in := 1, total_messages_out := 0, is_active := true,
    created_at := 0, updated_at := 0, has_unread_inbound := none }

/-- Witness for `c5_staleness_window` at a concrete contact and clock. -/
theorem c5_witness :
    usesCache sampleContact 7000000001 = true
    ∧ fetchContactsStep sampleContact 7000000001 []
        = { sampleContact with has_unread_inbound := some false } := by
  have h := c5_staleness_window sampleContact 7000000001 (by decide)
  have h1 : usesCache sampleContact 7000000001 = true :=
    h.1.mpr ⟨⟨7000000000, rfl, by decide⟩, by decide⟩
  exact ⟨h1, h.2.2.1 [] h1⟩

/-! ## C6 -/

/-- A read outbound message with `sent_at` present (effective timestamp 10). -/
def msgC6sent : Message :=
  { sampleMessage with
    id := "m10"
    direction := "outbound"
    sent_at := some 10
    created_at := 0
    read_at := some 11
    status := "read" }

/-- An unread inbound message with `sent_at` null and a later `created_at`
(effective timestamp 100). -/
def msgC6null : Message :=
  { sampleMessage with
    id := "m11"
    direction := "inbound"
    sent_at := none
    created_at := 100
    read_at := none }

/-- C6, as stated, is false: the last-message query orders by `sent_at`
descending with nulls LAST, then `created_at` descending — not by effective
timestamp.  Here the most recent message by effective timestamp (100 vs 10)
is inbound and unread, yet the derived flag is false, because the row with a
null `sent_at` sorts after the row with `sent_at` present. -/
theorem c6_counterexample :
    effTime msgC6sent < effTime msgC6null
    ∧ msgC6null.direction = "inbound"
    ∧ msgC6null.read_at = none
    ∧ (freshLookup sampleContact [msgC6sent, msgC6null]).has_unread_inbound = some false := by
  refine ⟨by decide, rfl, rfl, ?_⟩
  have hq : lastMessageQuery [msgC6sent, msgC6null] = some msgC6sent := by
    unfold lastMessageQuery
    rw [List.mergeSort_of_sorted (by decide)]
    rfl
  unfold freshLookup
  rw [hq]
  decide

/-- C6 (amended): the freshly derived unread flag equals
`inbound ∧ read_at = null` of the TOP message under the query order `dbLe`
(`sent_at` descending with nulls last, then `created_at` descending); that
message precedes every candidate in the query order, and when every candidate
has `sent_at` present it also maximizes the effective timestamp, which is the
reading of the original claim. -/
theorem c6_unread_from_query_order (contact : Contact) (l : List Message) (m0 : Message)
    (h : lastMessageQuery l = some m0) :
    m0 ∈ l
    ∧ (∀ m ∈ l, dbLe m0 m = true)
    ∧ (freshLookup contact l).has_unread_inbound = some (rosterUnread m0)
    ∧ ((∀ m ∈ l, m.sent_at ≠ none) → ∀ m ∈ l, effTime m ≤ effTime m0) := by
  have hflag : (freshLookup contact l).has_unread_inbound = some (rosterUnread m0) := by
    unfold freshLookup
    rw [h]
  have hmin : ∀ m ∈ l, dbLe m0 m = true := by
    intro m hm
    have hp := List.sorted_mergeSort dbLe_trans dbLe_total l
    have hm' : m ∈ l.mergeSort dbLe := List.mem_mergeSort.mpr hm
    unfold lastMessageQuery at h
    cases hsc : l.mergeSort dbLe with
    | nil => rw [hsc] at h; simp at h
    | cons x t =>
      rw [hsc] at h
      simp only [List.head?_cons, Option.some.injEq] at h
      subst h
      rw [hsc] at hp hm'
      rcases List.mem_cons.mp hm' with rfl | hmt
      · exact dbLe_refl m
      · exact List.rel_of_pairwise_cons hp hmt
  have hmem : m0 ∈ l := by
    unfold lastMessageQuery at h
    have hms : m0 ∈ l.mergeSort dbLe := by
      cases hsc : l.mergeSort dbLe with
      | nil => rw [hsc] at h; simp at h
      | cons x t =>
        rw [hsc] at h
        simp only [List.head?_cons, Option.some.injEq] at h
        exact h ▸ List.mem_cons_self x t
    exact List.mem_mergeSort.mp hms
  refine ⟨hmem, hmin, hflag, ?_⟩
  intro hall m hm
  have hd := hmin m hm
  have h0 : m0.sent_at ≠ none := hall m0 hmem
  have h1 : m.sent_at ≠ none := hall m hm
  unfold dbLe at hd
  cases hm0 : m0.sent_at with
  | none => exact absurd hm0 h0
  | some x =>
    cases hmm : m.sent_at with
    | none => exact absurd hmm h1
    | some y =>
      rw [hm0, hmm] at hd
      simp only [Bool.or_eq_true, Bool.and_eq_true, decide_eq_true_eq] at hd
      have he1 : effTime m = y := by simp [effTime, hmm]
      have he2 : effTime m0 = x := by simp [effTime, hm0]
      rw [he1, he2]
      omega

/-- Witness for `c6_unread_from_query_order` at a concrete input. -/
theorem c6_amended_witness :
    (freshLookup sampleContact [msgC6sent, msgC6null]).has_unread_inbound
      = some (rosterUnread msgC6sent) :=
  (c6_unread_from_query_order sampleContact [msgC6sent, msgC6null] msgC6sent
    (by unfold lastMessageQuery; rw [List.mergeSort_of_sorted (by decide)]; rfl)).2.2.1

/-! ## C7 -/

theorem markMessagesAsRead_of_empty (contactId : String) (now : Int) (msgs : List Message)
    (h : unreadInboundFor contactId msgs = []) :
    markMessagesAsRead contactId now msgs = msgs := by
  simp only [markMessagesAsRead, h]
  rfl

theorem markMessagesAsRead_of_nonempty (contactId : String) (now : Int)
    (msgs : List Message) (h : unreadInboundFor contactId msgs ≠ []) :
    markMessagesAsRead contactId now msgs
      = msgs.map (fun m =>
          if ((unreadInboundFor contactId msgs).map (fun m => m.id)).contains m.id then
            { m with status := "read", read_at := some now, updated_at := now }
          else m) := by
  have hne : (unreadInboundFor contactId msgs).isEmpty = false := by
    cases hc : unreadInboundFor contactId msgs with
    | nil => exact absurd hc h
    | cons x t => rfl
  simp only [markMessagesAsRead, hne]
  rfl

theorem unreadInboundFor_eq_nil_iff (contactId : String) (l : List Message) :
    unreadInboundFor contactId l = [] ↔
      ∀ m ∈ l, ¬(m.contact_id == some contactId && m.direction == "inbound"
        && m.read_at == none) = true := by
  unfold unreadInboundFor
  exact List.filter_eq_nil_iff

theorem unreadInboundFor_markMessagesAsRead (contactId : String) (now : Int)
    (msgs : List Message) :
    unreadInboundFor contactId (markMessagesAsRead contactId now msgs) = [] := by
  by_cases hu : unreadInboundFor contactId msgs = []
  · rw [markMessagesAsRead_of_empty contactId now msgs hu]
    exact hu
  · rw [markMessagesAsRead_of_nonempty contactId now msgs hu,
      unreadInboundFor_eq_nil_iff]
    intro x hx
    obtain ⟨m, hm, rfl⟩ := List.mem_map.mp hx
    by_cases hcont :
        (((unreadInboundFor contactId msgs).map (fun m => m.id)).contains m.id) = true
    · rw [if_pos hcont]
      simp
    · have hcf : (((unreadInboundFor contactId msgs).map (fun m => m.id)).contains m.id)
          = false := by
        cases hc : ((unreadInboundFor contactId msgs).map (fun m => m.id)).contains m.id
        · rfl
        · exact absurd hc hcont
      simp only [hcf, Bool.false_eq_true, if_false]
      intro hpred
      apply hcont
      have hmu : m ∈ unreadInboundFor contactId msgs :=
        List.mem_filter.mpr ⟨hm, hpred⟩
      have hmid : m.id ∈ (unreadInboundFor contactId msgs).map (fun m => m.id) :=
        List.mem_map.mpr ⟨m, hmu, rfl⟩
      exact List.elem_eq_true_of_mem hmid

/-- C7: the read-state transition selects exactly the unread inbound messages
of the contact; with no match it is a no-op; each matched row reappears with
status `read` and the stamped timestamps; and a second invocation right after
the first matches zero rows and changes nothing, so the read timestamps of
the first invocation survive (idempotence). -/
theorem c7_mark_read_idempotent (contactId : String) (now1 now2 : Int)
    (msgs : List Message) :
    (unreadInboundFor contactId msgs = [] →
      markMessagesAsRead contactId now1 msgs = msgs)
    ∧ (∀ m ∈ msgs,
        (m.contact_id == some contactId && m.direction == "inbound"
          && m.read_at == none) = true →
        { m with status := "read", read_at := some now1, updated_at := now1 }
          ∈ markMessagesAsRead contactId now1 msgs)
    ∧ unreadInboundFor contactId (markMessagesAsRead contactId now1 msgs) = []
    ∧ markMessagesAsRead contactId now2 (markMessagesAsRead contactId now1 msgs)
        = markMessagesAsRead contactId now1 msgs := by
  refine ⟨markMessagesAsRead_of_empty contactId now1 msgs, ?_,
    unreadInboundFor_markMessagesAsRead contactId now1 msgs,
    markMessagesAsRead_of_empty contactId now2 _
      (unreadInboundFor_markMessagesAsRead contactId now1 msgs)⟩
  intro m hm hpred
  have hmu : m ∈ unreadInboundFor contactId msgs := List.mem_filter.mpr ⟨hm, hpred⟩
  have hu : unreadInboundFor contactId msgs ≠ [] := by
    intro hc
    rw [hc] at hmu
    cases hmu
  rw [markMessagesAsRead_of_nonempty contactId now1 msgs hu]
  have hmid : m.id ∈ (unreadInboundFor contactId msgs).map (fun m => m.id) :=
    List.mem_map.mpr ⟨m, hmu, rfl⟩
  have hcont : (((unreadInboundFor contactId msgs).map (fun m => m.id)).contains m.id) = true :=
    List.elem_eq_true_of_mem hmid
  exact List.mem_map.mpr ⟨m, hm, by simp only [if_pos hcont]⟩

/-- The inbound unread message of the C7 witness. -/
def msgUnread : Message :=
  { sampleMessage with
    id := "m20"
    direction := "inbound"
    read_at := none
    contact_id := some "c1" }

/-- Witness for `c7_mark_read_idempotent`: a concrete matched row is stamped. -/
theorem c7_witness :
    { msgUnread with status := "read", read_at := some (100 : Int), updated_at := (100 : Int) }
      ∈ markMessagesAsRead "c1" 100 [msgUnread] :=
  (c7_mark_read_idempotent "c1" 100 200 [msgUnread]).2.1 msgUnread
    (List.mem_singleton_self msgUnread) (by decide)

/-! ## C8 -/

/-- C8: the ChatView subscription merge discards a pushed message exactly
when some current message shares its id or its `wamid` field value (JS `===`
on two nulls is true, hence `Option` equality); otherwise the message is
inserted and the list re-sorted ascending by effective timestamp; delivering
the same event twice equals delivering it once. -/
theorem c8_merge_dedup_idempotent (prev : List Message) (e : Message) :
    ((∃ m ∈ prev, m.id = e.id ∨ m.wamid = e.wamid) → mergeNewMessage prev e = prev)
    ∧ ((∀ m ∈ prev, m.id ≠ e.id ∧ m.wamid ≠ e.wamid) →
        e ∈ mergeNewMessage prev e
        ∧ (mergeNewMessage prev e).Perm (prev ++ [e])
        ∧ (mergeNewMessage prev e).Pairwise (fun a b => effTime a ≤ effTime b))
    ∧ mergeNewMessage (mergeNewMessage prev e) e = mergeNewMessage prev e := by
  have hany : ∀ l : List Message,
      (l.any fun msg => msg.id == e.id || msg.wamid == e.wamid) = true
        ↔ ∃ m ∈ l, m.id = e.id ∨ m.wamid = e.wamid := by
    intro l
    simp only [List.any_eq_true, Bool.or_eq_true, beq_iff_eq]
  refine ⟨?_, ?_, ?_⟩
  · intro hex
    unfold mergeNewMessage
    rw [if_pos ((hany prev).mpr hex)]
  · intro hall
    have hne : ¬((prev.any fun msg => msg.id == e.id || msg.wamid == e.wamid) = true) := by
      intro hc
      obtain ⟨m, hm, hor⟩ := (hany prev).mp hc
      rcases hor with h | h
      · exact (hall m hm).1 h
      · exact (hall m hm).2 h
    unfold mergeNewMessage
    rw [if_neg hne]
    refine ⟨?_, List.mergeSort_perm _ _, ?_⟩
    · rw [List.mem_mergeSort]
      exact List.mem_append.mpr (Or.inr (List.mem_singleton_self e))
    · exact (List.sorted_mergeSort effLe_trans effLe_total _).imp
        (fun hab => by simpa [effLe, decide_eq_true_eq] using hab)
  · by_cases hc : (prev.any fun msg => msg.id == e.id || msg.wamid == e.wamid) = true
    · have h1 : mergeNewMessage prev e = prev := by
        unfold mergeNewMessage
        rw [if_pos hc]
      rw [h1]
      exact h1
    · have h1 : mergeNewMessage prev e = (prev ++ [e]).mergeSort effLe := by
        unfold mergeNewMessage
        rw [if_neg hc]
      rw [h1]
      have hmem : e ∈ (prev ++ [e]).mergeSort effLe := by
        rw [List.mem_mergeSort]
        exact List.mem_append.mpr (Or.inr (List.mem_singleton_self e))
      have hc2 : (((prev ++ [e]).mergeSort effLe).any
          fun msg => msg.id == e.id || msg.wamid == e.wamid) = true :=
        List.any_eq_true.mpr ⟨e, hmem, by simp⟩
      unfold mergeNewMessage
      rw [if_pos hc2]

/-- A pushed message with a different id but the same (null) `wamid` as
`sampleMessage`: the merge discards it. -/
def msgPushed : Message :=
  { sampleMessage with id := "m30" }

/-- Witness for `c8_merge_dedup_idempotent`: the concrete discard case. -/
theorem c8_witness : mergeNewMessage [sampleMessage] msgPushed = [sampleMessage] :=
  (c8_merge_dedup_idempotent [sampleMessage] msgPushed).1 (by decide)

/-! ## C9 -/

/-- Whether the fetch outcome is an HTTP response with a 2xx status. -/
def outcomeOk : FetchOutcome → Bool
  | .response status _ => responseOk status
  | .networkFailure _ => false

/-- C9: the send succeeds iff the webhook URL is configured and the POST
returned a 2xx status; on any failure the function returns an error result
(it is a total function: it never throws), and the composer shows an error
and restores the trimmed original input text for a manual retry; on success
the input is cleared and the optimistic message is emitted.  `handleSend`
performs a single send attempt by construction — there is no retry. -/
theorem c9_send_success_iff_2xx (webhookUrl : Option String) (outcome : FetchOutcome)
    (st : ComposerState) (hsend : st.sending = false)
    (htext : (jsTrim st.messageText).isEmpty = false) :
    ((sendMessage webhookUrl outcome).success = true
      ↔ (webhookUrl.isSome = true ∧ outcomeOk outcome = true))
    ∧ ((sendMessage webhookUrl outcome).success = false →
        (sendMessage webhookUrl outcome).error.isSome = true
        ∧ handleSend st (sendMessage webhookUrl outcome)
            = { state := { messageText := jsTrim st.messageText, sending := false },
                alerted := true, sent := none })
    ∧ ((sendMessage webhookUrl outcome).success = true →
        handleSend st (sendMessage webhookUrl outcome)
          = { state := { messageText := "", sending := false },
              alerted := false, sent := some (jsTrim st.messageText) }) := by
  have hguard : ¬(((jsTrim st.messageText).isEmpty || st.sending) = true) := by
    rw [htext, hsend]
    exact Bool.false_ne_true
  refine ⟨?_, ?_, ?_⟩
  · cases webhookUrl with
    | none => simp [sendMessage]
    | some u =>
      cases outcome with
      | response status statusText =>
        by_cases hok : responseOk status = true
        · simp [sendMessage, outcomeOk, hok]
        · have hok' : responseOk status = false := by
            cases h : responseOk status
            · rfl
            · exact absurd h hok
          simp [sendMessage, outcomeOk, hok']
      | networkFailure message => simp [sendMessage, outcomeOk]
  · intro hf
    constructor
    · cases webhookUrl with
      | none => simp [sendMessage]
      | some u =>
        cases outcome with
        | response status statusText =>
          by_cases hok : responseOk status = true
          · rw [show sendMessage (some u) (FetchOutcome.response status statusText)
                = { success := true, error := none } from by simp [sendMessage, hok]] at hf
            cases hf
          · have hok' : responseOk status = false := by
              cases h : responseOk status
              · rfl
              · exact absurd h hok
            simp [sendMessage, hok']
        | networkFailure message => simp [sendMessage]
    · unfold handleSend
      rw [if_neg hguard, if_neg (by rw [hf]; exact Bool.false_ne_true)]
  · intro ht
    unfold handleSend
    rw [if_neg hguard, if_pos ht]

/-- The concrete composer state of the C9 witness. -/
def composerBusy : ComposerState :=
  { messageText := "  hello there ", sending := false }

/-- Witness for `c9_send_success_iff_2xx`: a 500 response restores the input
and raises the alert. -/
theorem c9_witness :
    handleSend composerBusy
        (sendMessage (some "https://example.org/hook")
          (FetchOutcome.response 500 "Internal Server Error"))
      = { state := { messageText := jsTrim composerBusy.messageText, sending := false },
          alerted := true, sent := none } :=
  ((c9_send_success_iff_2xx (some "https://example.org/hook")
      (FetchOutcome.response 500 "Internal Server Error")
      composerBusy rfl (by decide)).2.1 (by decide)).2

/-! ## C10 -/

/-- C10: a contact id that resolves to no contact row yields the empty
message list with `hasMore = false` and `total = 0`; the reconciler takes the
early-return branch and raises nothing (the embedding is a total function —
the only throwing paths of the source are store query errors, which are out
of scope here). -/
theorem c10_unknown_contact_empty (contacts : List Contact) (msgs : List Message)
    (contactId : String) (limit offset : Nat)
    (h : ∀ c ∈ contacts, c.id ≠ contactId) :
    fetchMessages contacts msgs contactId limit offset
      = { messages := [], hasMore := false, total := 0 } := by
  have hfc : fetchContact contacts contactId = none := by
    unfold fetchContact
    rw [show contacts.filter (fun c => c.id == contactId) = [] from by
      rw [List.filter_eq_nil_iff]
      intro c hc
      simp [h c hc]]
  unfold fetchMessages
  rw [hfc]

/-- Witness for `c10_unknown_contact_empty` at a concrete store. -/
theorem c10_witness :
    fetchMessages [sampleContact] [sampleMessage] "missing" 1000 0
      = { messages := [], hasMore := false, total := 0 } :=
  c10_unknown_contact_empty [sampleContact] [sampleMessage] "missing" 1000 0 (by decide)

end WhatsappAutomation
